import Mathlib

/-!
Verification of the ugdb protocol engine (gdbmi-rs/src/lib.rs) and the
layout description parser (src/layout.rs), as shallow embeddings.

Part 1: the GDB session handle.  `GDB` owns the child process, its stdin
writer, the shared `is_running : Arc<AtomicBool>` flag and the receiving
end of the mpsc channel fed by the output worker thread.  We embed the
session as an explicit state record and each method as a state-passing
function.  Blocking receives are represented by a distinguished outcome
(`blocked`) that occurs exactly when the channel is empty and still open;
a failing write to the child stdin (the `.expect("write interpreter
command")` in the source) is represented by the `panicked` outcome.
-/

namespace Gdbmi

/-- Opaque token standing for `input::MiCommand` (its internal structure,
from gdbmi-rs/src/input.rs, is irrelevant to the session-level claims). -/
structure MiCommand where
  tag : Nat
deriving DecidableEq, Repr

/-- Opaque token standing for `output::ResultRecord`. -/
structure ResultRecord where
  tag : Nat
deriving DecidableEq, Repr

/-- Type `ExecuteError` from gdbmi-rs/src/lib.rs. -/
inductive ExecuteError where
  | Busy : ExecuteError
  | Quit : ExecuteError
deriving DecidableEq, Repr

/-- State of a `GDB` session handle:
* `isRunning` — the shared `Arc<AtomicBool>` execution-state flag;
* `channel` — the records buffered in the mpsc result channel, oldest first;
* `channelClosed` — whether the sending half was dropped (worker exited);
* `written` — the commands written so far to the child's stdin;
* `stdinOk` — whether writes to the child's stdin succeed. -/
structure GDBState where
  isRunning : Bool
  channel : List ResultRecord
  channelClosed : Bool
  written : List MiCommand
  stdinOk : Bool
deriving DecidableEq, Repr

/-- Possible outcomes of `GDB::execute`.  `ok`/`busy`/`quit` mirror
`Ok(record)`, `Err(Busy)`, `Err(Quit)`; `blocked` stands for `recv()`
blocking forever on an empty, still-open channel; `panicked` stands for
the `.expect("write interpreter command")` firing on a write failure. -/
inductive ExecResult where
  | ok : ResultRecord → ExecResult
  | busy : ExecResult
  | quit : ExecResult
  | blocked : ExecResult
  | panicked : ExecResult
deriving DecidableEq, Repr

/-- Possible outcomes of `GDB::execute_later` (which returns `()` in the
source: a received record or a closed-channel error are both discarded by
`let _ = self.result_output.recv();`). -/
inductive ExecLaterResult where
  | done : ExecLaterResult
  | blocked : ExecLaterResult
  | panicked : ExecLaterResult
deriving DecidableEq, Repr

/-- Method `GDB::execute`, with `mpsc::Receiver::recv` semantics on the embedded channel state:
buffered records are delivered in FIFO order even after the sender is
gone; an empty closed channel yields the error; an empty open channel
blocks. -/
def execute (s : GDBState) (c : MiCommand) : ExecResult × GDBState :=
  if s.isRunning then
    (ExecResult.busy, s)
  else if s.stdinOk = false then
    (ExecResult.panicked, s)
  else
    let s1 : GDBState := { s with written := s.written ++ [c] }
    match s1.channel with
    | r :: rest => (ExecResult.ok r, { s1 with channel := rest })
    | [] =>
      if s1.channelClosed then (ExecResult.quit, s1)
      else (ExecResult.blocked, s1)

/-- Method `GDB::execute_later`: same write path, no busy check, the one
received record (or the closed-channel error) is discarded. -/
def execute_later (s : GDBState) (c : MiCommand) : ExecLaterResult × GDBState :=
  if s.stdinOk = false then
    (ExecLaterResult.panicked, s)
  else
    let s1 : GDBState := { s with written := s.written ++ [c] }
    match s1.channel with
    | r :: rest =>
      let _ := r
      (ExecLaterResult.done, { s1 with channel := rest })
    | [] =>
      if s1.channelClosed then (ExecLaterResult.done, s1)
      else (ExecLaterResult.blocked, s1)

/-- Method `GDB::is_running`: a plain sequentially-consistent load of the flag;
the state is returned unchanged to make the absence of mutation explicit. -/
def is_running (s : GDBState) : Bool × GDBState :=
  (s.isRunning, s)

/-- Method `GDB::interrupt_execution`: sends SIGINT to the child process.
`signalOk` abstracts whether `nix::sys::signal::kill` succeeds; the
session state itself is untouched either way. -/
def interrupt_execution (s : GDBState) (signalOk : Bool) :
    Except Unit Unit × GDBState :=
  (if signalOk then Except.ok () else Except.error (), s)

/-- The session state produced by `GDB::spawn` (lib.rs lines 51-78):
`AtomicBool::new(false)`, a fresh empty open mpsc channel, nothing
written yet, stdin healthy. -/
def spawnState : GDBState :=
  { isRunning := false
    channel := []
    channelClosed := false
    written := []
    stdinOk := true }

/-- Modelled from the spec: the body of `output::process_output`
(gdbmi-rs/src/output.rs, not under src/) as seen by the session state.
Per spec §4.3 the worker, per parsed record, either flips the shared
execution flag (Exec out-of-band record whose class denotes running or
stopped), forwards other out-of-band and stream records elsewhere
without touching session state, or pushes a result record onto the FIFO
result channel. -/
inductive WorkerRecord where
  | execRunning : WorkerRecord
  | execStopped : WorkerRecord
  | otherOob : WorkerRecord
  | streamRec : WorkerRecord
  | resultRec : ResultRecord → WorkerRecord
deriving DecidableEq, Repr

/-- Modelled from the spec: one dispatch step of the output worker. -/
def workerStep (s : GDBState) : WorkerRecord → GDBState
  | WorkerRecord.execRunning => { s with isRunning := true }
  | WorkerRecord.execStopped => { s with isRunning := false }
  | WorkerRecord.otherOob => s
  | WorkerRecord.streamRec => s
  | WorkerRecord.resultRec r => { s with channel := s.channel ++ [r] }

/-- Modelled from the spec: the worker processing a sequence of parsed
records in order. -/
def workerSteps (s : GDBState) (rs : List WorkerRecord) : GDBState :=
  rs.foldl workerStep s

/-- Sequential `execute` calls from the caller thread, collecting each
call's outcome. -/
def executeAll (s : GDBState) : List MiCommand → List ExecResult × GDBState
  | [] => ([], s)
  | c :: cs =>
    let p := execute s c
    let q := executeAll p.2 cs
    (p.1 :: q.1, q.2)

/-- The argv-building part of `GDB::spawn`: the `std::process::Command`
builder chain. -/
structure ProcCommand where
  program : String
  argv : List String
  stdinPiped : Bool
  stdoutPiped : Bool
deriving DecidableEq, Repr

def ProcCommand.new (p : String) : ProcCommand :=
  { program := p, argv := [], stdinPiped := false, stdoutPiped := false }

def ProcCommand.arg (c : ProcCommand) (a : String) : ProcCommand :=
  { c with argv := c.argv ++ [a] }

def ProcCommand.args (c : ProcCommand) (more : List String) : ProcCommand :=
  { c with argv := c.argv ++ more }

def ProcCommand.withStdinPiped (c : ProcCommand) : ProcCommand :=
  { c with stdinPiped := true }

def ProcCommand.withStdoutPiped (c : ProcCommand) : ProcCommand :=
  { c with stdoutPiped := true }

/-- The exact builder chain of `GDB::spawn` (lib.rs lines 52-60):
`Command::new("/bin/gdb").arg("--interpreter=mi").arg(tty_arg)
.args(arguments).stdin(Stdio::piped()).stdout(Stdio::piped())`
where `tty_arg = "--tty=" ++ process_tty_name`. -/
def spawnCommand (arguments : List String) (process_tty_name : String) :
    ProcCommand :=
  let tty_arg := "--tty=" ++ process_tty_name
  (((((ProcCommand.new "/bin/gdb").arg
      "--interpreter=mi").arg tty_arg).args
      arguments).withStdinPiped).withStdoutPiped

end Gdbmi

/-!
Part 2: the layout description parser (src/layout.rs).  The input iterator
`Input<'a>(Peekable<CharIndices<'a>>)` is embedded as the remaining list of
(byte index, character) pairs.  The `unsegen` layout constructors
(`Leaf::new`, `HSplit::new`, `VSplit::new`) are embedded as a syntax tree;
weights are `u32` digit accumulations cast to `f64` in the source (plus the
default `1.0`), represented here as the exactly corresponding naturals,
wrapped modulo 2^32 as in a release build.  The `assert!(nodes.len() == 1)`
plus `nodes.pop().unwrap()` at the end of `parse_node`, and a hypothetical
exhaustion of the recursion fuel, are embedded as the explicit outcomes
`panicked` and `fuelOut`, so that totality is a provable statement rather
than a modelling artifact. -/

namespace UgdbLayout

inductive TuiContainerType where
  | Console : TuiContainerType
  | Terminal : TuiContainerType
  | SrcView : TuiContainerType
  | ExpressionTable : TuiContainerType
deriving DecidableEq, Repr

inductive Layout where
  | Leaf : TuiContainerType → Layout
  | HSplit : List (Layout × Nat) → Layout
  | VSplit : List (Layout × Nat) → Layout
deriving Repr

/-- Type `LayoutParseError` from src/layout.rs. -/
inductive LayoutParseError where
  | TooShortExpected : List Char → LayoutParseError
  | ExpectedGotMany : Nat → List Char → Char → LayoutParseError
  | SplitTypeChangeFromTo : Nat → Char → Char → LayoutParseError
deriving DecidableEq, Repr

inductive SplitType where
  | H : SplitType
  | V : SplitType
  | N : SplitType
deriving DecidableEq, Repr

/-- Outcome of the embedded parser: a layout, one of the three error
variants, a panic (`assert!`/`unwrap` firing), or fuel exhaustion. -/
inductive PResult (α : Type) where
  | ok : α → PResult α
  | err : LayoutParseError → PResult α
  | panicked : PResult α
  | fuelOut : PResult α
deriving DecidableEq, Repr

def NODE_START_CHARS : List Char := ['c', 't', 's', 'e', '(']

def CLOSING_BRACKET_CHARS : List Char := [')']

/-- The remaining portion of the `CharIndices` iterator. -/
abbrev Input : Type := List (Nat × Char)

/-- Function `str::char_indices`: characters paired with their UTF-8 byte offsets. -/
def charIndices (k : Nat) : List Char → List (Nat × Char)
  | [] => []
  | c :: cs => (k, c) :: charIndices (k + c.utf8Size) cs

/-- Function `Input::new`: errors on an empty string. -/
def inputNew (s : String) : Except LayoutParseError Input :=
  match charIndices 0 s.data with
  | [] => Except.error (LayoutParseError.TooShortExpected NODE_START_CHARS)
  | p :: rest => Except.ok (p :: rest)

def u32wrap (n : Nat) : Nat := n % 4294967296

def digitVal (c : Char) : Nat := c.toNat - 48

/-- The accumulation loop of `try_parse_weight`: as long as the current
character is a decimal digit, accumulate (with `u32` release-mode
wrapping) and advance. -/
def parseWeightLoop (w : Nat) : Input → Nat × Input
  | [] => (w, [])
  | (idx, c) :: rest =>
    if c.isDigit then parseWeightLoop (u32wrap (w * 10 + digitVal c)) rest
    else (w, (idx, c) :: rest)

/-- Function `try_parse_weight`: default weight 1 when the input does not start
with a digit; otherwise the digit accumulation. -/
def tryParseWeight (i : Input) : Nat × Input :=
  match i with
  | [] => (1, i)
  | (_, c) :: _ => if c.isDigit then parseWeightLoop 0 i else (1, i)

/-- Function `try_parse_leaf`: one of the four leaf letters, consuming it. -/
def tryParseLeaf (i : Input) : Option (Layout × Input) :=
  match i with
  | [] => none
  | (_, c) :: rest =>
    if c = 'c' then some (Layout.Leaf TuiContainerType.Console, rest)
    else if c = 't' then some (Layout.Leaf TuiContainerType.Terminal, rest)
    else if c = 's' then some (Layout.Leaf TuiContainerType.SrcView, rest)
    else if c = 'e' then some (Layout.Leaf TuiContainerType.ExpressionTable, rest)
    else none

/-- The final `match split_type` of `parse_node`: with no split separator
seen, the source asserts that exactly one node was collected and pops it;
any other node count would panic. -/
def finishNode (nodes : List (Layout × Nat)) (st : SplitType) (i : Input) :
    PResult Layout × Input :=
  match st with
  | SplitType.H => (PResult.ok (Layout.HSplit nodes), i)
  | SplitType.V => (PResult.ok (Layout.VSplit nodes), i)
  | SplitType.N =>
    match nodes with
    | [ln] => (PResult.ok ln.1, i)
    | _ => (PResult.panicked, i)

/-- The handling of the closing bracket after a recursive
`parse_node(i)?` call inside `parse_node`'s loop: on success the current
character must be `')'` and is consumed; otherwise the error is the
`ExpectedGotMany`/`TooShortExpected` of lines 86-100 of the source;
a failing recursive call propagates. -/
def closeParen (p : PResult Layout × Input) : PResult Layout × Input :=
  match p with
  | (PResult.ok l, i3) =>
    match i3 with
    | (idx3, c3) :: i4 =>
      if c3 = ')' then (PResult.ok l, i4)
      else (PResult.err (LayoutParseError.ExpectedGotMany idx3
              CLOSING_BRACKET_CHARS c3), (idx3, c3) :: i4)
    | [] =>
      (PResult.err (LayoutParseError.TooShortExpected CLOSING_BRACKET_CHARS), [])
  | other => other

/-- The tail of each loop iteration of `parse_node` (lines 115-141 of the
source), after the freshly parsed node has been pushed: inspect the
current character; a consistent split separator is consumed and the loop
continues (`k`), a conflicting one is the `SplitTypeChangeFromTo` error,
and anything else — or end of input — breaks to the final
`match split_type`. -/
def afterNodeK
    (k : Input → List (Layout × Nat) → SplitType → PResult Layout × Input)
    (iRest : Input) (nodes2 : List (Layout × Nat)) (st : SplitType) :
    PResult Layout × Input :=
  match iRest with
  | [] => finishNode nodes2 st []
  | (idx, c) :: rest =>
    if c = '|' then
      match st with
      | SplitType.V =>
        (PResult.err (LayoutParseError.SplitTypeChangeFromTo idx '-' '|'),
          (idx, c) :: rest)
      | _ => k rest nodes2 SplitType.H
    else if c = '-' then
      match st with
      | SplitType.H =>
        (PResult.err (LayoutParseError.SplitTypeChangeFromTo idx '|' '-'),
          (idx, c) :: rest)
      | _ => k rest nodes2 SplitType.V
    else finishNode nodes2 st ((idx, c) :: rest)

/-- The loop of `parse_node`, with `nodes` and `split_type` as
accumulators.  A recursive `parse_node(i)` call in the source is
`parseLoopF fuel i [] SplitType.N` here.  Each iteration parses an
optional weight, then a leaf or a parenthesised subtree, pushes it, and
hands over to `afterNodeK` for the split-separator handling. -/
def parseLoopF : Nat → Input → List (Layout × Nat) → SplitType →
    PResult Layout × Input
  | 0, i, _, _ => (PResult.fuelOut, i)
  | Nat.succ fuel, i, nodes, st =>
    let wp := tryParseWeight i
    let step : PResult Layout × Input :=
      match tryParseLeaf wp.2 with
      | some li => (PResult.ok li.1, li.2)
      | none =>
        match wp.2 with
        | (idx, c) :: i2 =>
          if c = '(' then closeParen (parseLoopF fuel i2 [] SplitType.N)
          else
            (PResult.err (LayoutParseError.ExpectedGotMany idx
                NODE_START_CHARS c), (idx, c) :: i2)
        | [] =>
          (PResult.err (LayoutParseError.TooShortExpected NODE_START_CHARS), [])
    match step with
    | (PResult.ok l, iRest) =>
      afterNodeK (fun j nds s => parseLoopF fuel j nds s)
        iRest (nodes ++ [(l, wp.1)]) st
    | other => other

/-- Function `parse_node`, with enough fuel for its input (proved below). -/
def parse_node (i : Input) : PResult Layout × Input :=
  parseLoopF (2 * i.length + 2) i [] SplitType.N

/-- Function `parse` from src/layout.rs: build the iterator (empty input is the
`TooShortExpected` error) and run `parse_node`; leftover input is
dropped. -/
def parse (s : String) : PResult Layout :=
  match inputNew s with
  | Except.error e => PResult.err e
  | Except.ok i => (parse_node i).1

/-- A parse outcome permitted by totality: a layout or a proper error. -/
def PResult.isProper : PResult Layout → Bool
  | PResult.ok _ => true
  | PResult.err _ => true
  | PResult.panicked => false
  | PResult.fuelOut => false

/-- Totality invariant for parser results: no panic, no fuel exhaustion,
and on success the leftover input is no longer than `n`. -/
def GoodRes (n : Nat) : PResult Layout × Input → Prop
  | (PResult.ok _, r) => r.length ≤ n
  | (PResult.err _, _) => True
  | (PResult.panicked, _) => False
  | (PResult.fuelOut, _) => False

/-- Like `GoodRes`, but on success the leftover input is strictly shorter
than `n`: what holds after one whole node has been consumed. -/
def StrictRes (n : Nat) : PResult Layout × Input → Prop
  | (PResult.ok _, r) => r.length < n
  | (PResult.err _, _) => True
  | (PResult.panicked, _) => False
  | (PResult.fuelOut, _) => False

end UgdbLayout

namespace Gdbmi

/-- Helper for C8: a worker that never dispatches an Exec running-record
leaves the flag at `false`. -/
theorem workerSteps_keeps_idle (recs : List WorkerRecord) :
    ∀ s : GDBState, s.isRunning = false →
      (∀ rr ∈ recs, rr ≠ WorkerRecord.execRunning) →
      (workerSteps s recs).isRunning = false := by
  induction recs with
  | nil => intro s hs _; exact hs
  | cons rr rest ih =>
    intro s hs hall
    have hrr : rr ≠ WorkerRecord.execRunning := hall rr (by simp)
    have hrest : ∀ x ∈ rest, x ≠ WorkerRecord.execRunning := by
      intro x hx; exact hall x (by simp [hx])
    have hstep : (workerStep s rr).isRunning = false := by
      cases rr with
      | execRunning => exact absurd rfl hrr
      | execStopped => simp [workerStep]
      | otherOob => simpa [workerStep] using hs
      | streamRec => simpa [workerStep] using hs
      | resultRec r => simpa [workerStep] using hs
    simpa [workerSteps, List.foldl_cons] using
      ih (workerStep s rr) hstep hrest

/-- Claim C1: while the ExecutionState flag is `running`, `execute`
returns `ExecuteError::Busy` immediately, and the session state is left
completely untouched: nothing is written to the subprocess input and
nothing is removed from the result channel. -/
theorem execute_busy_no_write (s : GDBState) (c : MiCommand)
    (h : s.isRunning = true) :
    execute s c = (ExecResult.busy, s) ∧
      (execute s c).2.written = s.written ∧
      (execute s c).2.channel = s.channel := by
  refine ⟨by simp [execute, h], ?_, ?_⟩ <;> simp [execute, h]

/-- Witness for C1 at a concrete busy session state. -/
theorem execute_busy_no_write_witness :
    (GDBState.mk true [⟨7⟩] false [] true).isRunning = true ∧
      execute (GDBState.mk true [⟨7⟩] false [] true) ⟨0⟩ =
        (ExecResult.busy, GDBState.mk true [⟨7⟩] false [] true) :=
  ⟨rfl, (execute_busy_no_write (GDBState.mk true [⟨7⟩] false [] true) ⟨0⟩ rfl).1⟩

/-- Claim C2: FIFO matching.  With the flag idle, a healthy stdin and the
result channel holding the records in subprocess emission order, N
sequential `execute` calls return exactly the first N records in order:
the i-th call receives the i-th record, with no correlation token. -/
theorem executeAll_fifo (cmds : List MiCommand) :
    ∀ s : GDBState, s.isRunning = false → s.stdinOk = true →
      cmds.length ≤ s.channel.length →
      (executeAll s cmds).1 =
        (s.channel.take cmds.length).map ExecResult.ok := by
  induction cmds with
  | nil => intro s _ _ _; simp [executeAll]
  | cons c cs ih =>
    intro s hrun hok hlen
    match hch : s.channel with
    | [] => exact absurd hlen (by simp [hch])
    | r :: rest =>
      have hex : execute s c =
          (ExecResult.ok r,
            { s with written := s.written ++ [c], channel := rest }) := by
        simp [execute, hrun, hok, hch]
      have hlen' : cs.length ≤ rest.length := by
        simp [hch] at hlen; omega
      have := ih { s with written := s.written ++ [c], channel := rest }
        (by simp [hrun]) (by simp [hok]) (by simpa using hlen')
      simp [executeAll, hex, this, hch]

/-- Witness for C2: three idle calls against three queued records. -/
theorem executeAll_fifo_witness :
    (executeAll (GDBState.mk false [⟨10⟩, ⟨11⟩, ⟨12⟩] false [] true)
        [⟨0⟩, ⟨1⟩, ⟨2⟩]).1 =
      [ExecResult.ok ⟨10⟩, ExecResult.ok ⟨11⟩, ExecResult.ok ⟨12⟩] := by
  have := executeAll_fifo [⟨0⟩, ⟨1⟩, ⟨2⟩]
    (GDBState.mk false [⟨10⟩, ⟨11⟩, ⟨12⟩] false [] true)
    rfl rfl (by decide)
  simpa using this

/-- Claim C3: once the result channel is closed (worker gone after
output-pipe EOF) and drained, an idle `execute` returns
`ExecuteError::Quit` instead of hanging, and so does every subsequent
call: the closed/drained channel state persists. -/
theorem execute_quit_on_closed (s : GDBState) (c c2 : MiCommand)
    (hrun : s.isRunning = false) (hok : s.stdinOk = true)
    (hcl : s.channelClosed = true) (hch : s.channel = []) :
    (execute s c).1 = ExecResult.quit ∧
      (execute s c).2.channelClosed = true ∧
      (execute s c).2.channel = [] ∧
      (execute s c).2.isRunning = false ∧
      (execute (execute s c).2 c2).1 = ExecResult.quit := by
  refine ⟨?_, ?_, ?_, ?_, ?_⟩ <;>
    simp [execute, hrun, hok, hcl, hch]

/-- Witness for C3 at a concrete dead session. -/
theorem execute_quit_on_closed_witness :
    (execute (GDBState.mk false [] true [] true) ⟨0⟩).1 = ExecResult.quit ∧
      (execute (execute (GDBState.mk false [] true [] true) ⟨0⟩).2 ⟨1⟩).1 =
        ExecResult.quit :=
  ⟨(execute_quit_on_closed (GDBState.mk false [] true [] true) ⟨0⟩ ⟨1⟩
      rfl rfl rfl rfl).1,
   (execute_quit_on_closed (GDBState.mk false [] true [] true) ⟨0⟩ ⟨1⟩
      rfl rfl rfl rfl).2.2.2.2⟩

/-- Counterexample to claim C4 as stated: past the Busy check, a failing
write to the subprocess input does NOT surface as an error result — the
source runs `.expect("write interpreter command")`, i.e. it panics.  At
this concrete input the outcome is precisely the panic. -/
theorem execute_write_failure_panics_cex :
    (execute (GDBState.mk false [] false [] false) ⟨0⟩).1 =
      ExecResult.panicked := rfl

/-- Claim C4 as amended: past the Busy check, a write failure panics the
calling thread via `expect` (an abort distinct from `ExecuteError::Busy`
and `ExecuteError::Quit`, which remain the only `ExecuteError` variants);
no error value is returned and no record is consumed. -/
theorem execute_write_failure_panics (s : GDBState) (c : MiCommand)
    (hrun : s.isRunning = false) (hbad : s.stdinOk = false) :
    execute s c = (ExecResult.panicked, s) := by
  simp [execute, hrun, hbad]

/-- Witness for the amended C4. -/
theorem execute_write_failure_panics_witness :
    execute (GDBState.mk false [⟨3⟩] false [] false) ⟨1⟩ =
      (ExecResult.panicked, GDBState.mk false [⟨3⟩] false [] false) :=
  execute_write_failure_panics (GDBState.mk false [⟨3⟩] false [] false) ⟨1⟩
    rfl rfl

/-- Claim C5: `execute_later` writes exactly one command and pops exactly
one record, which it discards (its result type carries no record).
Relative to the state *before* the command's reply was appended by the
worker, the pending-record count of the channel is unchanged. -/
theorem execute_later_balance (s : GDBState) (c : MiCommand)
    (r : ResultRecord) (hok : s.stdinOk = true) :
    (execute_later (workerStep s (WorkerRecord.resultRec r)) c).1 =
        ExecLaterResult.done ∧
      (execute_later (workerStep s (WorkerRecord.resultRec r)) c).2.written =
        s.written ++ [c] ∧
      (execute_later (workerStep s (WorkerRecord.resultRec r)) c).2.channel.length =
        s.channel.length := by
  match hch : s.channel with
  | [] =>
    refine ⟨?_, ?_, ?_⟩ <;> simp [execute_later, workerStep, hok, hch]
  | x :: xs =>
    refine ⟨?_, ?_, ?_⟩ <;> simp [execute_later, workerStep, hok, hch]

/-- Witness for C5 with one pending reply arriving on an empty channel. -/
theorem execute_later_balance_witness :
    (execute_later (workerStep (GDBState.mk false [] false [] true)
        (WorkerRecord.resultRec ⟨9⟩)) ⟨4⟩).2.channel.length =
      (GDBState.mk false [] false [] true).channel.length :=
  (execute_later_balance (GDBState.mk false [] false [] true) ⟨4⟩ ⟨9⟩
    rfl).2.2

/-- Claim C6: `execute_later` performs no Busy check — for every state,
even with the flag `running`, it writes the command unconditionally;
on an empty closed channel the closed-channel error is silently
discarded (outcome `done`, nothing surfaced), and on an empty open
channel the call blocks. -/
theorem execute_later_no_busy_check (s : GDBState) (c : MiCommand)
    (hok : s.stdinOk = true) :
    (execute_later s c).2.written = s.written ++ [c] ∧
      (s.channelClosed = true → s.channel = [] →
        execute_later s c =
          (ExecLaterResult.done, { s with written := s.written ++ [c] })) ∧
      (s.channelClosed = false → s.channel = [] →
        (execute_later s c).1 = ExecLaterResult.blocked) := by
  refine ⟨?_, ?_, ?_⟩
  · match hch : s.channel with
    | [] =>
      by_cases hcl : s.channelClosed <;>
        simp [execute_later, hok, hch, hcl]
    | x :: xs => simp [execute_later, hok, hch]
  · intro hcl hch; simp [execute_later, hok, hch, hcl]
  · intro hcl hch; simp [execute_later, hok, hch, hcl]

/-- Witness for C6 at a concrete running session with a dead channel. -/
theorem execute_later_no_busy_check_witness :
    execute_later (GDBState.mk true [] true [] true) ⟨2⟩ =
      (ExecLaterResult.done, GDBState.mk true [] true [⟨2⟩] true) :=
  (execute_later_no_busy_check (GDBState.mk true [] true [] true) ⟨2⟩
    rfl).2.1 rfl rfl

/-- Claim C7: frame property of the caller-side operations — `execute`,
`execute_later`, `is_running` and `interrupt_execution` never change the
ExecutionState flag (only the worker writes it after its initial value);
`is_running` and `interrupt_execution` change no session state at all. -/
theorem callers_preserve_flag (s : GDBState) (c : MiCommand) (b : Bool) :
    (execute s c).2.isRunning = s.isRunning ∧
      (execute_later s c).2.isRunning = s.isRunning ∧
      (is_running s).2 = s ∧
      (interrupt_execution s b).2 = s := by
  refine ⟨?_, ?_, rfl, rfl⟩
  · by_cases hrun : s.isRunning
    · simp [execute, hrun]
    · by_cases hok : s.stdinOk
      · match hch : s.channel with
        | [] =>
          by_cases hcl : s.channelClosed <;>
            simp [execute, hrun, hok, hch, hcl]
        | x :: xs => simp [execute, hrun, hok, hch]
      · simp [execute, hrun, eq_false_of_ne_true hok]
  · by_cases hok : s.stdinOk
    · match hch : s.channel with
      | [] =>
        by_cases hcl : s.channelClosed <;>
          simp [execute_later, hok, hch, hcl]
      | x :: xs => simp [execute_later, hok, hch]
    · simp [execute_later, eq_false_of_ne_true hok]

/-- Claim C8: right after spawn the flag is `idle` (`is_running` returns
`false`), `is_running` is a pure read that modifies nothing, and the flag
stays `false` for as long as the worker has not dispatched an Exec
running-record. -/
theorem spawn_starts_idle :
    (is_running spawnState).1 = false ∧
      (∀ s : GDBState, (is_running s).2 = s) ∧
      (∀ recs : List WorkerRecord,
        (∀ rr ∈ recs, rr ≠ WorkerRecord.execRunning) →
        (is_running (workerSteps spawnState recs)).1 = false) := by
  refine ⟨rfl, fun s => rfl, fun recs h => ?_⟩
  exact workerSteps_keeps_idle recs spawnState rfl h

/-- Witness for C8: a stop notification and a result record leave the
flag `false`. -/
theorem spawn_starts_idle_witness :
    (is_running (workerSteps spawnState
        [WorkerRecord.execStopped, WorkerRecord.resultRec ⟨5⟩])).1 = false :=
  spawn_starts_idle.2.2 [WorkerRecord.execStopped, WorkerRecord.resultRec ⟨5⟩]
    (by decide)

/-- Claim C9: `spawn` launches `/bin/gdb` with the fixed
`--interpreter=mi` flag first, then the `--tty=` redirect built from the
caller's tty name, then the caller-supplied extra arguments, with both
stdin and stdout piped for the protocol exchange. -/
theorem spawn_command_shape (arguments : List String) (tty : String) :
    spawnCommand arguments tty =
      { program := "/bin/gdb"
        argv := "--interpreter=mi" :: ("--tty=" ++ tty) :: arguments
        stdinPiped := true
        stdoutPiped := true } := by
  simp [spawnCommand, ProcCommand.new, ProcCommand.arg, ProcCommand.args,
    ProcCommand.withStdinPiped, ProcCommand.withStdoutPiped]

end Gdbmi

namespace UgdbLayout

theorem parseWeightLoop_len (i : Input) :
    ∀ w : Nat, (parseWeightLoop w i).2.length ≤ i.length := by
  induction i with
  | nil => intro w; simp [parseWeightLoop]
  | cons p rest ih =>
    intro w
    rcases p with ⟨idx, c⟩
    by_cases hd : c.isDigit
    · simp only [parseWeightLoop, hd, if_true]
      exact le_trans (ih _) (by simp)
    · simp [parseWeightLoop, hd]

theorem tryParseWeight_len (i : Input) :
    (tryParseWeight i).2.length ≤ i.length := by
  rcases i with _ | ⟨⟨idx, c⟩, rest⟩
  · simp [tryParseWeight]
  · by_cases hd : c.isDigit
    · simpa [tryParseWeight, hd] using parseWeightLoop_len ((idx, c) :: rest) 0
    · simp [tryParseWeight, hd]

theorem tryParseLeaf_len {i : Input} {l : Layout} {r : Input}
    (h : tryParseLeaf i = some (l, r)) : r.length + 1 = i.length := by
  rcases i with _ | ⟨⟨idx, c⟩, rest⟩
  · simp [tryParseLeaf] at h
  · simp only [tryParseLeaf] at h
    split_ifs at h <;> simp at h <;> rcases h with ⟨-, rfl⟩ <;> simp

theorem GoodRes_mono {n m : Nat} (h : n ≤ m) (p : PResult Layout × Input) :
    GoodRes n p → GoodRes m p := by
  rcases p with ⟨out, r⟩
  cases out with
  | ok l => intro hp; exact le_trans hp h
  | err e => intro _; trivial
  | panicked => intro hp; exact hp.elim
  | fuelOut => intro hp; exact hp.elim

theorem finishNode_good (n : Nat) (nodes2 : List (Layout × Nat))
    (st : SplitType) (i : Input)
    (hone : st = SplitType.N → nodes2.length = 1) (hlen : i.length ≤ n) :
    GoodRes n (finishNode nodes2 st i) := by
  cases st with
  | H => simpa [finishNode, GoodRes] using hlen
  | V => simpa [finishNode, GoodRes] using hlen
  | N =>
    have h1 : nodes2.length = 1 := hone rfl
    rcases nodes2 with _ | ⟨ln, rest2⟩
    · simp at h1
    · rcases rest2 with _ | ⟨ln2, t⟩
      · simpa [finishNode, GoodRes] using hlen
      · simp at h1

theorem closeParen_good (m : Nat) (p : PResult Layout × Input)
    (h : GoodRes m p) : StrictRes m (closeParen p) := by
  rcases p with ⟨out, r⟩
  cases out with
  | ok l =>
    have hr : r.length ≤ m := h
    rcases r with _ | ⟨⟨idx3, c3⟩, i4⟩
    · simp [closeParen, StrictRes]
    · by_cases hc : c3 = ')'
      · subst hc
        simp only [closeParen, if_pos rfl]
        show i4.length < m
        simp [List.length_cons] at hr
        omega
      · simp only [closeParen, if_neg hc]
        trivial
  | err e => simp [closeParen, StrictRes]
  | panicked => exact h.elim
  | fuelOut => exact h.elim

theorem afterNodeK_good
    (k : Input → List (Layout × Nat) → SplitType → PResult Layout × Input)
    (n : Nat) (iRest : Input) (nodes2 : List (Layout × Nat)) (st : SplitType)
    (hk : ∀ (j : Input) (nds : List (Layout × Nat)) (s : SplitType),
      j.length + 2 ≤ n → (s = SplitType.N → nds = []) →
      GoodRes j.length (k j nds s))
    (hlt : iRest.length < n)
    (hone : st = SplitType.N → nodes2.length = 1) :
    GoodRes n (afterNodeK k iRest nodes2 st) := by
  rcases iRest with _ | ⟨⟨idx, c⟩, rest⟩
  · simp only [afterNodeK]
    exact finishNode_good n nodes2 st [] hone (by simp)
  · have hrest : rest.length + 2 ≤ n := by
      simp [List.length_cons] at hlt; omega
    simp only [afterNodeK]
    by_cases hc : c = '|'
    · subst hc
      rw [if_pos rfl]
      cases st with
      | V => trivial
      | H =>
        exact GoodRes_mono (by omega) _
          (hk rest nodes2 SplitType.H (by omega) (by intro h; cases h))
      | N =>
        exact GoodRes_mono (by omega) _
          (hk rest nodes2 SplitType.H (by omega) (by intro h; cases h))
    · rw [if_neg hc]
      by_cases hd : c = '-'
      · subst hd
        rw [if_pos rfl]
        cases st with
        | H => trivial
        | V =>
          exact GoodRes_mono (by omega) _
            (hk rest nodes2 SplitType.V (by omega) (by intro h; cases h))
        | N =>
          exact GoodRes_mono (by omega) _
            (hk rest nodes2 SplitType.V (by omega) (by intro h; cases h))
      · rw [if_neg hd]
        exact finishNode_good n nodes2 st ((idx, c) :: rest) hone
          (le_of_lt hlt)

theorem parseLoopF_good (fuel : Nat) :
    ∀ (i : Input) (nodes : List (Layout × Nat)) (st : SplitType),
      2 * i.length + 1 ≤ fuel → (st = SplitType.N → nodes = []) →
      GoodRes i.length (parseLoopF fuel i nodes st) := by
  induction fuel with
  | zero => intro i nodes st h _; exact absurd h (by omega)
  | succ f ih =>
    intro i nodes st hfuel hinv
    have hwlen : (tryParseWeight i).2.length ≤ i.length := tryParseWeight_len i
    have hk : ∀ (j : Input) (nds : List (Layout × Nat)) (s : SplitType),
        j.length + 2 ≤ i.length → (s = SplitType.N → nds = []) →
        GoodRes j.length (parseLoopF f j nds s) := by
      intro j nds s hj hs
      exact ih j nds s (by omega) hs
    rcases hleaf : tryParseLeaf (tryParseWeight i).2 with _ | ⟨l, i2⟩
    · rcases hw2 : (tryParseWeight i).2 with _ | ⟨⟨idx, c⟩, i2⟩
      · rw [hw2] at hleaf
        simp [parseLoopF, hleaf, hw2, GoodRes]
      · rw [hw2] at hleaf
        by_cases hc : c = '('
        · subst hc
          have hi2 : i2.length + 1 ≤ i.length := by
            rw [hw2] at hwlen
            simp [List.length_cons] at hwlen
            omega
          have hnest : GoodRes i2.length (parseLoopF f i2 [] SplitType.N) :=
            ih i2 [] SplitType.N (by omega) (fun _ => rfl)
          have hstrict : StrictRes i2.length
              (closeParen (parseLoopF f i2 [] SplitType.N)) :=
            closeParen_good _ _ hnest
          rcases hcp : closeParen (parseLoopF f i2 [] SplitType.N)
            with ⟨out, iRest⟩
          rw [hcp] at hstrict
          cases out with
          | ok l =>
            have hlt : iRest.length < i.length := by
              have : iRest.length < i2.length := hstrict
              omega
            simp only [parseLoopF, hleaf, hw2, if_pos rfl, hcp]
            exact afterNodeK_good _ _ _ _ _ hk hlt
              (fun hN => by simp [hinv hN])
          | err e =>
            simp [parseLoopF, hleaf, hw2, hcp, GoodRes]
          | panicked => exact hstrict.elim
          | fuelOut => exact hstrict.elim
        · simp [parseLoopF, hleaf, hw2, hc, GoodRes]
    · have hi2 : i2.length < i.length := by
        have := tryParseLeaf_len hleaf
        omega
      simp only [parseLoopF, hleaf]
      exact afterNodeK_good _ _ _ _ _ hk hi2
        (fun hN => by simp [hinv hN])


theorem parse_node_good (i : Input) : GoodRes i.length (parse_node i) := by
  have h := parseLoopF_good (2 * i.length + 2) i [] SplitType.N
    (by omega) (fun _ => rfl)
  simpa [parse_node] using h

/-- Claim C10: the layout-description parser is total — for every input
string `parse` returns a layout or one of the three `LayoutParseError`
variants, never reaching the internal single-node assertion, the
`unwrap`ped index lookups, or fuel exhaustion; empty input is the
`TooShortExpected` error, an unexpected character is `ExpectedGotMany`
at its byte position, and mixing the two split separators at one nesting
level is `SplitTypeChangeFromTo`. -/
theorem parse_total :
    (∀ s : String, (parse s).isProper = true) ∧
      parse "" =
        PResult.err (LayoutParseError.TooShortExpected NODE_START_CHARS) ∧
      parse "f" =
        PResult.err (LayoutParseError.ExpectedGotMany 0 NODE_START_CHARS 'f') ∧
      parse "s-e|t" =
        PResult.err (LayoutParseError.SplitTypeChangeFromTo 3 '-' '|') := by
  refine ⟨?_, rfl, rfl, rfl⟩
  intro s
  rcases hn : inputNew s with e | i
  · simp [parse, hn, PResult.isProper]
  · have hg := parse_node_good i
    rcases hp : parse_node i with ⟨out, r⟩
    rw [hp] at hg
    cases out with
    | ok l => simp [parse, hn, hp, PResult.isProper]
    | err e => simp [parse, hn, hp, PResult.isProper]
    | panicked => exact hg.elim
    | fuelOut => exact hg.elim

end UgdbLayout
